import Mathlib

/-!
Verification of the profile-resolution engine in src/src-tauri/src/lib.rs.

The engine resolves a named filament profile: it locates the defining file
(user override directories first, then a recursive search of the system
tree), follows the chain of inherits references, deep-merges the chain and
stamps bookkeeping fields on the result.

The filesystem is modelled as explicit data: a list of user filament
directories (each a list of regular files) and a recursive system tree.
A file carries the outcome of loading it, an `Except String JValue`
collapsing open/read/parse failures into the error string that load_json
would produce.  JSON objects are modelled as keyed field lists; serde maps
have unique keys and their key order is not observable through any
property proved here, so insertion is modelled as replace-or-append.
JSON numbers carry their literal value exactly (they are only ever copied
and compared, never computed with).
-/

namespace Orca

/-- JSON values as produced by the document loader (serde_json::Value). -/
inductive JValue where
  | null : JValue
  | bool (b : Bool) : JValue
  | num (q : Rat) : JValue
  | str (s : String) : JValue
  | arr (xs : List JValue) : JValue
  | obj (fields : List (String × JValue)) : JValue

/-- Map lookup on an object field list (serde Map::get). -/
def lookupField : List (String × JValue) → String → Option JValue
  | [], _ => none
  | (k0, v) :: rest, k => if k0 == k then some v else lookupField rest k

/-- Map insert on an object field list (serde Map::insert / entry or_insert
followed by in-place mutation): replace the value at an existing key,
otherwise add the binding. -/
def setKey : List (String × JValue) → String → JValue → List (String × JValue)
  | [], k, v => [(k, v)]
  | (k0, v0) :: rest, k, v =>
    if k0 == k then (k, v) :: rest else (k0, v0) :: setKey rest k v

/-- Map remove (serde Map::remove), dropping the binding for `k`. -/
def removeKey : List (String × JValue) → String → List (String × JValue)
  | [], _ => []
  | (k0, v0) :: rest, k =>
    if k0 == k then removeKey rest k else (k0, v0) :: removeKey rest k

/-- Map contains_key. -/
def containsKey : List (String × JValue) → String → Bool
  | [], _ => false
  | (k0, _) :: rest, k => k0 == k || containsKey rest k

/-- Value::get with a string index: a field lookup on objects, none otherwise. -/
def jGet (v : JValue) (k : String) : Option JValue :=
  match v with
  | JValue.obj fields => lookupField fields k
  | _ => none

/-- Value::as_str. -/
def jAsStr : JValue → Option String
  | JValue.str s => some s
  | _ => none

/-- v.get(k).and_then(Value::as_str). -/
def jGetStr (v : JValue) (k : String) : Option String :=
  (jGet v k).bind jAsStr

/-- Whether a value is a JSON object (Value::as_object is Some). -/
def isObj : JValue → Bool
  | JValue.obj _ => true
  | _ => false

mutual
/-- deep_merge from lib.rs: when both operands are objects, merge every key
of the second operand into the first recursively; in every other case the
second operand replaces the first wholesale. -/
def deep_merge (into fromv : JValue) : JValue :=
  match into, fromv with
  | JValue.obj a, JValue.obj b => JValue.obj (dmFields a b)
  | _, f => f
termination_by structural fromv

/-- The object branch of deep_merge: fold the keys of `b` into `a` in order;
`(lookupField a k).getD JValue.null` is the entry-or-insert-Null placeholder
that the recursive merge then targets. -/
def dmFields (a : List (String × JValue)) : List (String × JValue) → List (String × JValue)
  | [] => a
  | (k, v) :: rest =>
    dmFields (setKey a k (deep_merge ((lookupField a k).getD JValue.null) v)) rest
termination_by structural l => l
end

/-- A regular file: its filename and the outcome load_json would produce on
it (open/read/parse failures collapsed into the error string). -/
structure FSFile where
  fname : String
  content : Except String JValue

/-- One user filament directory (a `user/<set>/filament` override tier).
Directory entries that are not regular files would be skipped by every
operation modelled here, so only the regular files are carried. -/
structure UserDir where
  files : List FSFile

/-- A directory subtree of the system tier: its regular files and its
subdirectories in enumeration order. -/
inductive SysTree where
  | node (files : List FSFile) (subdirs : List SysTree)

/-- The filesystem state a resolution runs against: the ordered user
filament directories and the system tree rooted at `system/`. -/
structure FS where
  userDirs : List UserDir
  system : SysTree

/-- A path returned by the locator: either file `fname` inside user
directory number `i`, or file `fname` inside the system subdirectory
reached by the child indices in `loc`. -/
inductive ProfilePath where
  | user (i : Nat) (fname : String)
  | sys (loc : List Nat) (fname : String)

/-- Rust str::ends_with. -/
def strEndsWith (s t : String) : Bool :=
  t.data.isSuffixOf s.data

/-- Filename derivation shared by try_file and search_recursive: append
".json" unless the name already ends with it. -/
def derivedFname (name : String) : String :=
  if strEndsWith name ".json" then name else name ++ ".json"

/-- Whether a directory file list has a regular file called `fname`. -/
def hasFname (files : List FSFile) (fname : String) : Bool :=
  files.any (fun f => f.fname == fname)

/-- try_file from lib.rs: the candidate `dir/<derived fname>` if it is a
regular file. -/
def try_file (d : UserDir) (name : String) : Option String :=
  if hasFname d.files (derivedFname name) then some (derivedFname name) else none

/-- The user-tier probe loop of find_profile_file, carrying the index of
the directory currently probed. -/
def findUser : List UserDir → Nat → String → Option ProfilePath
  | [], _, _ => none
  | d :: rest, i, name =>
    match try_file d name with
    | some f => some (ProfilePath.user i f)
    | none => findUser rest (i + 1) name

mutual
/-- search_recursive from lib.rs: check the current directory for the
file, then walk the subdirectories depth-first, first match wins.  Returns
the child-index path of the directory holding the file. -/
def searchRec (t : SysTree) (fname : String) : Option (List Nat) :=
  match t with
  | SysTree.node files subs =>
    if hasFname files fname then some [] else searchRecList subs fname 0
termination_by structural t

/-- The subdirectory loop of search_recursive, carrying the child index. -/
def searchRecList (ts : List SysTree) (fname : String) (i : Nat) : Option (List Nat) :=
  match ts with
  | [] => none
  | t :: rest =>
    match searchRec t fname with
    | some loc => some (i :: loc)
    | none => searchRecList rest fname (i + 1)
termination_by structural ts
end

/-- find_profile_file from lib.rs: probe every user directory in order,
then search the whole system tree recursively. -/
def find_profile_file (fs : FS) (name : String) : Option ProfilePath :=
  match findUser fs.userDirs 0 name with
  | some p => some p
  | none => (searchRec fs.system (derivedFname name)).map
      (fun loc => ProfilePath.sys loc (derivedFname name))

/-- Load a named file from a directory file list; a missing file behaves
like an open failure (unreachable through the locator). -/
def dirContent (files : List FSFile) (fname : String) : Except String JValue :=
  match files.find? (fun f => f.fname == fname) with
  | some f => f.content
  | none => Except.error ("open " ++ fname ++ ": no such file")

/-- Follow a child-index path down the system tree. -/
def getSysDir : SysTree → List Nat → Option SysTree
  | t, [] => some t
  | SysTree.node _ subs, i :: rest =>
    match subs[i]? with
    | some t2 => getSysDir t2 rest
    | none => none

/-- load_json from lib.rs, reading through a locator path. -/
def load_json (fs : FS) : ProfilePath → Except String JValue
  | ProfilePath.user i fname =>
    match fs.userDirs[i]? with
    | some d => dirContent d.files fname
    | none => Except.error ("open " ++ fname ++ ": no such file")
  | ProfilePath.sys loc fname =>
    match getSysDir fs.system loc with
    | some (SysTree.node files _) => dirContent files fname
    | none => Except.error ("open " ++ fname ++ ": no such file")

/-- Locate and load in one step: none when no tier has the file, otherwise
the load outcome. -/
def lookupProfile (fs : FS) (name : String) : Option (Except String JValue) :=
  (find_profile_file fs name).map (load_json fs)

/-- The resolved display name of a chain entry: the documents own `name`
string field, falling back to the lookup key. -/
def displayName (obj : JValue) (cursor : String) : String :=
  (jGetStr obj "name").getD cursor

/-- All filenames visible in the user directories. -/
def userFnames : List UserDir → List String
  | [] => []
  | d :: rest => d.files.map (fun f => f.fname) ++ userFnames rest

mutual
/-- All filenames in a system subtree. -/
def sysFnames (t : SysTree) : List String :=
  match t with
  | SysTree.node files subs => files.map (fun f => f.fname) ++ sysFnamesList subs
termination_by structural t

/-- All filenames in a list of system subtrees. -/
def sysFnamesList (ts : List SysTree) : List String :=
  match ts with
  | [] => []
  | t :: rest => sysFnames t ++ sysFnamesList rest
termination_by structural ts
end

/-- Every filename any tier can serve. -/
def allFnames (fs : FS) : List String :=
  userFnames fs.userDirs ++ sysFnames fs.system

/-- Strip a trailing ".json" (5 characters) from a string. -/
def dropJsonSuffix (s : String) : String :=
  String.mk (s.data.take (s.data.length - 5))

/-- A finite overapproximation of the lookup keys the locator can resolve:
every visible filename, plus every visible filename with its ".json"
extension stripped. -/
def resolvableNames (fs : FS) : List String :=
  allFnames fs ++ (allFnames fs).map dropJsonSuffix

/-- How many potentially resolvable lookup keys are not in the visited set
yet: the loop variant of the chain resolver. -/
def notSeenCount (fs : FS) (seen : List String) : Nat :=
  ((resolvableNames fs).filter (fun x => decide (x ∉ seen))).length

/-- The resolve_chain loop of lib.rs with an explicit iteration budget.
`seen` is the visited set, `chain` the leaf-first list built so far,
`cursor` the lookup key of the current iteration.  `none` means the budget
ran out; `chainFuel` below is proved to always suffice. -/
def resolveAuxF (fs : FS) : Nat → List String → List (String × JValue) → String →
    Option (Except String (List (String × JValue)))
  | 0, _, _, _ => none
  | fuel + 1, seen, chain, cursor =>
    if cursor ∈ seen then
      some (Except.error ("cycle detected at '" ++ cursor ++ "'"))
    else
      match find_profile_file fs cursor with
      | none => some (Except.error ("profile not found for '" ++ cursor ++ "'"))
      | some path =>
        match load_json fs path with
        | Except.error e => some (Except.error e)
        | Except.ok obj =>
          let chain2 := chain ++ [(displayName obj cursor, obj)]
          match jGetStr obj "inherits" with
          | some inh => resolveAuxF fs fuel (cursor :: seen) chain2 inh
          | none => some (Except.ok chain2)

/-- An iteration budget that always suffices: one iteration per resolvable
lookup key, plus one for the final failing iteration. -/
def chainFuel (fs : FS) : Nat :=
  (resolvableNames fs).length + 1

/-- resolve_chain from lib.rs: run the loop from an empty visited set and
reverse the leaf-first list into the root-first ancestry chain.  The
out-of-fuel branch is proved unreachable. -/
def resolve_chain (fs : FS) (start_name : String) : Except String (List (String × JValue)) :=
  match resolveAuxF fs (chainFuel fs) [] [] start_name with
  | some (Except.ok chain) => Except.ok chain.reverse
  | some (Except.error e) => Except.error e
  | none => Except.error "resolver out of fuel"

/-- The accumulator build_final folds up: deep_merge over the chain in
root-to-leaf order, starting from the empty object. -/
def mergedOfChain (chain : List (String × JValue)) : JValue :=
  chain.foldl (fun acc kv => deep_merge acc kv.2) (JValue.obj [])

/-- build_final from lib.rs: fold the chain, then, when the accumulator is
an object, drop `inherits` and stamp `name`, `from`, `instantiation` and a
defaulted `type`; a non-object accumulator is returned untouched. -/
def build_final (chain : List (String × JValue)) (final_name : String) : JValue :=
  match mergedOfChain chain with
  | JValue.obj m =>
    let m1 := removeKey m "inherits"
    let m2 := setKey m1 "name" (JValue.str final_name)
    let fromVal := ((chain.getLast?).bind (fun kv => jGetStr kv.2 "from")).getD "User"
    let m3 := setKey m2 "from" (JValue.str fromVal)
    let m4 := setKey m3 "instantiation" (JValue.str "true")
    let m5 := if containsKey m4 "type" then m4 else setKey m4 "type" (JValue.str "filament")
    JValue.obj m5
  | acc => acc

/-- build_filament_profile from lib.rs, up to the final pretty-printing:
resolve the chain, pick the final display name from the leaf entry, build
the final document.  Serialization of the returned value cannot fail and
is not modelled; the claims about this function concern its field set. -/
def build_filament_profile (fs : FS) (start : String) : Except String JValue :=
  match resolve_chain fs start with
  | Except.error e => Except.error e
  | Except.ok chain =>
    let final_name :=
      match chain.getLast? with
      | some (n, o) => (jGetStr o "name").getD n
      | none => start
    Except.ok (build_final chain final_name)

/-- Split a character list at its last dot: `some (before, after)` when a
dot exists, preferring the rightmost one. -/
def splitLastDotAux : List Char → Option (List Char × List Char)
  | [] => none
  | c :: rest =>
    match splitLastDotAux rest with
    | some (pre, ext) => some (c :: pre, ext)
    | none => if c == '.' then some ([], rest) else none

/-- Rust Path::extension on a plain file name: the part after the last
dot, unless the only dot leads the name. -/
def extOf (fname : String) : Option String :=
  match splitLastDotAux fname.data with
  | some (pre, ext) => if pre.isEmpty then none else some (String.mk ext)
  | none => none

/-- Rust Path::file_stem on a plain file name: the part before the last
dot, or the whole name when there is no extension. -/
def stemOf (fname : String) : String :=
  match splitLastDotAux fname.data with
  | some (pre, _) => if pre.isEmpty then fname else String.mk pre
  | none => fname

/-- The per-file name choice of list_user_filament_profiles: prefer the
documents `name` string field, fall back to the filename stem. -/
def profileEntryName (f : FSFile) : Option String :=
  match (match f.content with
         | Except.ok v => jGetStr v "name"
         | Except.error _ => none) with
  | some n => some n
  | none => some (stemOf f.fname)

/-- BTreeSet::insert on the sorted duplicate-free list of names. -/
def btreeInsert : List String → String → List String
  | [], s => [s]
  | a :: rest, s =>
    if s < a then s :: a :: rest
    else if s == a then a :: rest
    else a :: btreeInsert rest s

/-- One file of the enumerator loop: files with the json extension
contribute their chosen name to the set. -/
def listFileStep (names : List String) (f : FSFile) : List String :=
  if extOf f.fname == some "json" then
    match profileEntryName f with
    | some n => btreeInsert names n
    | none => names
  else names

/-- The inner enumerator loop over the files of one user directory. -/
def listFilesFold (names : List String) : List FSFile → List String
  | [] => names
  | f :: rest => listFilesFold (listFileStep names f) rest

/-- The outer enumerator loop over the user directories. -/
def listDirsFold (names : List String) : List UserDir → List String
  | [] => names
  | d :: rest => listDirsFold (listFilesFold names d.files) rest

/-- list_user_filament_profiles from lib.rs: scan the user directories,
collect names into a sorted set, return it as a list. -/
def list_user_filament_profiles (fs : FS) : List String :=
  listDirsFold [] fs.userDirs

/-- What it means for a chain entry to belong to a lookup key: the locator
resolves the key to a path, loading that path yields the entry document,
and the entry name is the documents display name for that key. -/
def entryMatches (fs : FS) (k : String) (e : String × JValue) : Prop :=
  ∃ p, find_profile_file fs k = some p ∧ load_json fs p = Except.ok e.2 ∧
    e.1 = displayName e.2 k

/-! Concrete filesystem states used to instantiate the theorems. -/

/-- The document of base.json in the worked example. -/
def baseDoc : JValue :=
  JValue.obj [("name", JValue.str "Base"), ("bed_temp", JValue.num 60)]

/-- The document of child.json in the worked example. -/
def childDoc : JValue :=
  JValue.obj [("name", JValue.str "Child"), ("inherits", JValue.str "base"),
    ("bed_temp", JValue.num 65), ("density", JValue.num 1.24)]

/-- One user directory holding base.json and child.json; empty system tree. -/
def fs1 : FS :=
  ⟨[⟨[⟨"base.json", Except.ok baseDoc⟩, ⟨"child.json", Except.ok childDoc⟩]⟩],
    SysTree.node [] []⟩

/-- A profile that inherits y. -/
def xDoc : JValue := JValue.obj [("inherits", JValue.str "y")]

/-- A profile that inherits x. -/
def yDoc : JValue := JValue.obj [("inherits", JValue.str "x")]

/-- Two mutually inheriting profiles. -/
def fsCyc : FS :=
  ⟨[⟨[⟨"x.json", Except.ok xDoc⟩, ⟨"y.json", Except.ok yDoc⟩]⟩], SysTree.node [] []⟩

/-- One user directory holding a file with the profile extension whose
contents do not parse. -/
def fsBad : FS :=
  ⟨[⟨[⟨"bad.json", Except.error "parse bad.json: expected value"⟩]⟩],
    SysTree.node [] []⟩

/-- A profile file whose top-level value is an array, not an object. -/
def arrDoc : JValue := JValue.arr [JValue.num 1]

/-- One user directory holding the array-valued profile file. -/
def fsArr : FS :=
  ⟨[⟨[⟨"weird.json", Except.ok arrDoc⟩]⟩], SysTree.node [] []⟩

/-! ## Lemmas about the object field-list operations -/

theorem lookupField_setKey_self (l : List (String × JValue)) (k : String) (v : JValue) :
    lookupField (setKey l k v) k = some v := by
  induction l with
  | nil => simp [setKey, lookupField]
  | cons kv rest ih =>
    obtain ⟨k0, v0⟩ := kv
    by_cases h : k0 = k
    · subst h; simp [setKey, lookupField]
    · simp [setKey, lookupField, beq_iff_eq, h, ih]

theorem lookupField_setKey_ne (l : List (String × JValue)) (k k1 : String) (v : JValue)
    (hne : k1 ≠ k) : lookupField (setKey l k v) k1 = lookupField l k1 := by
  induction l with
  | nil => simp [setKey, lookupField, beq_iff_eq, Ne.symm hne]
  | cons kv rest ih =>
    obtain ⟨k0, v0⟩ := kv
    by_cases h : k0 = k
    · subst h
      simp [setKey, lookupField, beq_iff_eq, Ne.symm hne]
    · by_cases h1 : k0 = k1
      · subst h1
        simp [setKey, lookupField, beq_iff_eq, h]
      · simp [setKey, lookupField, beq_iff_eq, h, h1, ih]

theorem lookupField_removeKey_self (l : List (String × JValue)) (k : String) :
    lookupField (removeKey l k) k = none := by
  induction l with
  | nil => rfl
  | cons kv rest ih =>
    obtain ⟨k0, v0⟩ := kv
    by_cases h : k0 = k
    · simp [removeKey, beq_iff_eq, h, ih]
    · simp [removeKey, lookupField, beq_iff_eq, h, ih]

theorem lookupField_removeKey_ne (l : List (String × JValue)) (k k1 : String)
    (hne : k1 ≠ k) : lookupField (removeKey l k) k1 = lookupField l k1 := by
  induction l with
  | nil => rfl
  | cons kv rest ih =>
    obtain ⟨k0, v0⟩ := kv
    by_cases h : k0 = k
    · subst h
      simp [removeKey, lookupField, beq_iff_eq, Ne.symm hne, ih]
    · by_cases h1 : k0 = k1
      · subst h1
        simp [removeKey, lookupField, beq_iff_eq, h]
      · simp [removeKey, lookupField, beq_iff_eq, h, h1, ih]

theorem containsKey_eq_isSome (l : List (String × JValue)) (k : String) :
    containsKey l k = (lookupField l k).isSome := by
  induction l with
  | nil => rfl
  | cons kv rest ih =>
    obtain ⟨k0, v0⟩ := kv
    by_cases h : k0 = k
    · simp [containsKey, lookupField, beq_iff_eq, h]
    · simp [containsKey, lookupField, beq_iff_eq, h, ih]

theorem containsKey_append (l1 l2 : List (String × JValue)) (k : String) :
    containsKey (l1 ++ l2) k = (containsKey l1 k || containsKey l2 k) := by
  induction l1 with
  | nil => rfl
  | cons kv rest ih =>
    obtain ⟨k0, v0⟩ := kv
    simp [containsKey, ih, Bool.or_assoc]

theorem lookupField_eq_none_of_not_contains (l : List (String × JValue)) (k : String)
    (h : containsKey l k = false) : lookupField l k = none := by
  rw [containsKey_eq_isSome] at h
  cases hl : lookupField l k
  · rfl
  · rw [hl] at h; simp at h

theorem lookupField_eq_none_of_not_mem (l : List (String × JValue)) (k : String)
    (h : k ∉ l.map Prod.fst) : lookupField l k = none := by
  induction l with
  | nil => rfl
  | cons kv rest ih =>
    obtain ⟨k0, v0⟩ := kv
    simp only [List.map, List.mem_cons, not_or] at h
    have hne : ¬k0 = k := fun he => h.1 he.symm
    simp [lookupField, beq_iff_eq, hne, ih h.2]

theorem setKey_append (l : List (String × JValue)) (k : String) (v : JValue)
    (h : containsKey l k = false) : setKey l k v = l ++ [(k, v)] := by
  induction l with
  | nil => rfl
  | cons kv rest ih =>
    obtain ⟨k0, v0⟩ := kv
    simp only [containsKey, Bool.or_eq_false_iff] at h
    simp [setKey, h.1, ih h.2]

/-! ## Lemmas about deep_merge -/

theorem deep_merge_objs (a b : List (String × JValue)) :
    deep_merge (JValue.obj a) (JValue.obj b) = JValue.obj (dmFields a b) := rfl

theorem deep_merge_replaces (x y : JValue) (h : isObj x = false ∨ isObj y = false) :
    deep_merge x y = y := by
  cases x <;> cases y <;> first
    | rfl
    | (exfalso; simp [isObj] at h)

theorem deep_merge_null_left (v : JValue) : deep_merge JValue.null v = v := by
  cases v <;> rfl

theorem dmFields_cons (a : List (String × JValue)) (k : String) (v : JValue)
    (rest : List (String × JValue)) :
    dmFields a ((k, v) :: rest) =
      dmFields (setKey a k (deep_merge ((lookupField a k).getD JValue.null) v)) rest := rfl

theorem lookupField_dmFields (b : List (String × JValue)) :
    ∀ (a : List (String × JValue)) (k : String), (b.map Prod.fst).Nodup →
    lookupField (dmFields a b) k =
      match lookupField b k with
      | some v => some (deep_merge ((lookupField a k).getD JValue.null) v)
      | none => lookupField a k := by
  induction b with
  | nil => intro a k _; rfl
  | cons kv rest ih =>
    intro a k hb
    obtain ⟨k0, v0⟩ := kv
    simp only [List.map, List.nodup_cons] at hb
    rw [dmFields_cons, ih _ _ hb.2]
    by_cases hkk : k = k0
    · subst hkk
      rw [lookupField_eq_none_of_not_mem rest k hb.1]
      simp [lookupField, lookupField_setKey_self]
    · have hne : ¬k0 = k := fun he => hkk he.symm
      have hlb : lookupField ((k0, v0) :: rest) k = lookupField rest k := by
        simp [lookupField, beq_iff_eq, hne]
      rw [hlb]
      cases hr : lookupField rest k <;>
        simp [lookupField_setKey_ne _ _ _ _ hkk]

theorem dmFields_disjoint (b : List (String × JValue)) :
    ∀ (a : List (String × JValue)), (b.map Prod.fst).Nodup →
    (∀ k2 ∈ b.map Prod.fst, containsKey a k2 = false) →
    dmFields a b = a ++ b := by
  induction b with
  | nil => intro a _ _; simp [dmFields]
  | cons kv rest ih =>
    intro a hb hdisj
    obtain ⟨k, v⟩ := kv
    simp only [List.map, List.nodup_cons] at hb
    have hck : containsKey a k = false := hdisj k (by simp)
    rw [dmFields_cons, lookupField_eq_none_of_not_contains _ _ hck]
    simp only [Option.getD_none, deep_merge_null_left]
    rw [setKey_append _ _ _ hck]
    rw [ih _ hb.2 ?_]
    · simp
    · intro k2 hk2
      have hne : k2 ≠ k := fun he => hb.1 (he ▸ hk2)
      have hdk2 := hdisj k2 (by simp [hk2])
      have hne2 : ¬k = k2 := fun he => hne he.symm
      rw [containsKey_append, hdk2]
      simp [containsKey, beq_iff_eq, hne2]

/-! ## Claim theorems C4 and C5 -/

/-- Claim C4: deep_merge replaces wholesale when either operand is a
non-object (arrays are never merged element-wise), and on two objects it
merges each key of the second operand into the first: a key present in
the second operand maps to the recursive merge of the placeholder
(the existing value, or Null when absent) with the incoming value, and a
key absent from the second operand keeps the value of the first. -/
theorem deep_merge_semantics (a b : List (String × JValue)) (x y : JValue) (k : String)
    (hb : (b.map Prod.fst).Nodup) (hxy : isObj x = false ∨ isObj y = false) :
    (jGet (deep_merge (JValue.obj a) (JValue.obj b)) k =
      match jGet (JValue.obj b) k with
      | some v => some (deep_merge ((jGet (JValue.obj a) k).getD JValue.null) v)
      | none => jGet (JValue.obj a) k) ∧
    deep_merge x y = y := by
  constructor
  · rw [deep_merge_objs]
    show lookupField (dmFields a b) k = _
    rw [lookupField_dmFields b a k hb]
    rfl
  · exact deep_merge_replaces x y hxy

/-- Witness for C4 at concrete inputs: merging an object into an object at
an overridden key, and an array replacing an object wholesale. -/
theorem deep_merge_semantics_w :
    (jGet (deep_merge (JValue.obj [("bed_temp", JValue.num 60)])
        (JValue.obj [("bed_temp", JValue.num 65)])) "bed_temp" =
      match jGet (JValue.obj [("bed_temp", JValue.num 65)]) "bed_temp" with
      | some v => some (deep_merge
          ((jGet (JValue.obj [("bed_temp", JValue.num 60)]) "bed_temp").getD JValue.null) v)
      | none => jGet (JValue.obj [("bed_temp", JValue.num 60)]) "bed_temp") ∧
    deep_merge (JValue.obj [("bed_temp", JValue.num 60)]) (JValue.arr [JValue.num 1]) =
      JValue.arr [JValue.num 1] :=
  deep_merge_semantics [("bed_temp", JValue.num 60)] [("bed_temp", JValue.num 65)]
    (JValue.obj [("bed_temp", JValue.num 60)]) (JValue.arr [JValue.num 1]) "bed_temp"
    (by simp) (Or.inr rfl)

/-- Claim C5: merging an empty object into an object document leaves it
unchanged, and merging an object document into the empty object yields
that document (JSON objects have no duplicate keys, hence the Nodup
hypothesis on the second operand). -/
theorem deep_merge_empty (a b : List (String × JValue)) (hb : (b.map Prod.fst).Nodup) :
    deep_merge (JValue.obj a) (JValue.obj []) = JValue.obj a ∧
    deep_merge (JValue.obj []) (JValue.obj b) = JValue.obj b := by
  refine ⟨rfl, ?_⟩
  rw [deep_merge_objs, dmFields_disjoint b [] hb (fun k2 _ => rfl)]
  rfl

/-- Witness for C5 at a concrete object document. -/
theorem deep_merge_empty_w :
    deep_merge (JValue.obj [("bed_temp", JValue.num 60), ("name", JValue.str "Base")])
        (JValue.obj []) =
      JValue.obj [("bed_temp", JValue.num 60), ("name", JValue.str "Base")] ∧
    deep_merge (JValue.obj [])
        (JValue.obj [("bed_temp", JValue.num 60), ("name", JValue.str "Base")]) =
      JValue.obj [("bed_temp", JValue.num 60), ("name", JValue.str "Base")] :=
  deep_merge_empty [("bed_temp", JValue.num 60), ("name", JValue.str "Base")]
    [("bed_temp", JValue.num 60), ("name", JValue.str "Base")] (by simp)

/-! ## Lemmas about the locator and the loop variant of the resolver -/

theorem hasFname_mem {files : List FSFile} {fname : String}
    (h : hasFname files fname = true) : fname ∈ files.map (fun f => f.fname) := by
  unfold hasFname at h
  rcases List.any_eq_true.mp h with ⟨f, hf, hbeq⟩
  exact List.mem_map.mpr ⟨f, hf, by simpa [beq_iff_eq] using hbeq⟩

theorem findUser_mem : ∀ (dirs : List UserDir) (i : Nat) (name : String) (p : ProfilePath),
    findUser dirs i name = some p → derivedFname name ∈ userFnames dirs := by
  intro dirs
  induction dirs with
  | nil => intro i name p h; simp [findUser] at h
  | cons d rest ih =>
    intro i name p h
    by_cases hh : hasFname d.files (derivedFname name) = true
    · exact List.mem_append_left _ (hasFname_mem hh)
    · have ht : try_file d name = none := by
        simp [try_file, hh]
      rw [findUser, ht] at h
      exact List.mem_append_right _ (ih _ _ _ h)

mutual
theorem searchRec_mem (t : SysTree) (fname : String) (loc : List Nat)
    (h : searchRec t fname = some loc) : fname ∈ sysFnames t := by
  cases t with
  | node files subs =>
    rw [searchRec] at h
    by_cases hh : hasFname files fname = true
    · exact List.mem_append_left _ (hasFname_mem hh)
    · rw [if_neg (by simp [hh])] at h
      exact List.mem_append_right _ (searchRecList_mem subs fname 0 loc h)
termination_by sizeOf t

theorem searchRecList_mem (ts : List SysTree) (fname : String) (i : Nat) (loc : List Nat)
    (h : searchRecList ts fname i = some loc) : fname ∈ sysFnamesList ts := by
  cases ts with
  | nil => rw [searchRecList] at h; cases h
  | cons t rest =>
    rw [searchRecList] at h
    cases hr : searchRec t fname with
    | some l =>
      rw [sysFnamesList]
      exact List.mem_append_left _ (searchRec_mem t fname l hr)
    | none =>
      rw [hr] at h
      rw [sysFnamesList]
      exact List.mem_append_right _ (searchRecList_mem rest fname (i + 1) loc h)
termination_by sizeOf ts
end

theorem find_mem_allFnames {fs : FS} {name : String} {p : ProfilePath}
    (h : find_profile_file fs name = some p) : derivedFname name ∈ allFnames fs := by
  rw [find_profile_file] at h
  cases hu : findUser fs.userDirs 0 name with
  | some q => exact List.mem_append_left _ (findUser_mem _ _ _ _ hu)
  | none =>
    rw [hu] at h
    simp only [Option.map_eq_some'] at h
    obtain ⟨loc, hloc, _⟩ := h
    exact List.mem_append_right _ (searchRec_mem _ _ _ hloc)

theorem dropJsonSuffix_append (s : String) : dropJsonSuffix (s ++ ".json") = s := by
  have hdata : (s ++ ".json").data = s.data ++ (".json").data := by
    cases s; rfl
  rw [dropJsonSuffix, hdata, List.length_append]
  have h5 : (".json").data.length = 5 := rfl
  rw [h5, Nat.add_sub_cancel, List.take_left]

theorem mem_resolvable_of_find {fs : FS} {name : String} {p : ProfilePath}
    (h : find_profile_file fs name = some p) : name ∈ resolvableNames fs := by
  have hmem := find_mem_allFnames h
  by_cases he : strEndsWith name ".json" = true
  · rw [derivedFname, if_pos he] at hmem
    exact List.mem_append_left _ hmem
  · rw [derivedFname, if_neg (by simp [he])] at hmem
    exact List.mem_append_right _
      (List.mem_map.mpr ⟨name ++ ".json", hmem, dropJsonSuffix_append name⟩)

/-! ## Step equations for the resolver loop -/

theorem resolveAuxF_cycle (fs : FS) (fuel : Nat) (seen : List String)
    (chain : List (String × JValue)) (cursor : String) (h : cursor ∈ seen) :
    resolveAuxF fs (fuel + 1) seen chain cursor =
      some (Except.error ("cycle detected at '" ++ cursor ++ "'")) := by
  simp [resolveAuxF, h]

theorem resolveAuxF_notFound (fs : FS) (fuel : Nat) (seen : List String)
    (chain : List (String × JValue)) (cursor : String)
    (hns : cursor ∉ seen) (hf : find_profile_file fs cursor = none) :
    resolveAuxF fs (fuel + 1) seen chain cursor =
      some (Except.error ("profile not found for '" ++ cursor ++ "'")) := by
  simp [resolveAuxF, hns, hf]

theorem resolveAuxF_loadErr (fs : FS) (fuel : Nat) (seen : List String)
    (chain : List (String × JValue)) (cursor : String) (p : ProfilePath) (e : String)
    (hns : cursor ∉ seen) (hf : find_profile_file fs cursor = some p)
    (hl : load_json fs p = Except.error e) :
    resolveAuxF fs (fuel + 1) seen chain cursor = some (Except.error e) := by
  simp [resolveAuxF, hns, hf, hl]

theorem resolveAuxF_step (fs : FS) (fuel : Nat) (seen : List String)
    (chain : List (String × JValue)) (cursor : String) (p : ProfilePath)
    (obj : JValue) (inh : String)
    (hns : cursor ∉ seen) (hf : find_profile_file fs cursor = some p)
    (hl : load_json fs p = Except.ok obj) (hi : jGetStr obj "inherits" = some inh) :
    resolveAuxF fs (fuel + 1) seen chain cursor =
      resolveAuxF fs fuel (cursor :: seen) (chain ++ [(displayName obj cursor, obj)]) inh := by
  simp [resolveAuxF, hns, hf, hl, hi]

theorem resolveAuxF_done (fs : FS) (fuel : Nat) (seen : List String)
    (chain : List (String × JValue)) (cursor : String) (p : ProfilePath) (obj : JValue)
    (hns : cursor ∉ seen) (hf : find_profile_file fs cursor = some p)
    (hl : load_json fs p = Except.ok obj) (hi : jGetStr obj "inherits" = none) :
    resolveAuxF fs (fuel + 1) seen chain cursor =
      some (Except.ok (chain ++ [(displayName obj cursor, obj)])) := by
  simp [resolveAuxF, hns, hf, hl, hi]

/-! ## Sufficiency of the fuel bound -/

theorem filter_notSeen_lt {R seen : List String} {c : String}
    (hc : c ∈ R) (hcs : c ∉ seen) :
    (R.filter (fun x => decide (x ∉ c :: seen))).length <
      (R.filter (fun x => decide (x ∉ seen))).length := by
  induction R with
  | nil => cases hc
  | cons a R ih =>
    by_cases hac : a = c
    · subst hac
      have h1 : (decide (a ∉ a :: seen)) = false := by simp
      have h2 : (decide (a ∉ seen)) = true := by simpa using hcs
      rw [List.filter_cons, List.filter_cons, h1, h2]
      simp only [Bool.false_eq_true, if_false, if_true]
      have hsub : List.Sublist (R.filter (fun x => decide (x ∉ a :: seen)))
          (R.filter (fun x => decide (x ∉ seen))) := by
        apply List.monotone_filter_right
        intro x hx
        simp only [decide_eq_true_eq] at hx ⊢
        intro hmem
        exact hx (List.mem_cons_of_mem a hmem)
      exact Nat.lt_succ_of_le hsub.length_le
    · have hc2 : c ∈ R := by
        rcases List.mem_cons.mp hc with h | h
        · exact absurd h.symm hac
        · exact h
      have heq : (decide (a ∉ c :: seen)) = (decide (a ∉ seen)) := by
        apply decide_eq_decide.mpr
        simp [List.mem_cons, hac]
      rw [List.filter_cons, List.filter_cons, heq]
      cases hmem : (decide (a ∉ seen)) with
      | false => simpa using ih hc2
      | true => simpa using Nat.succ_lt_succ (ih hc2)

theorem resolveAuxF_ne_none (fs : FS) : ∀ (fuel : Nat) (seen : List String)
    (chain : List (String × JValue)) (cursor : String),
    notSeenCount fs seen < fuel → resolveAuxF fs fuel seen chain cursor ≠ none := by
  intro fuel
  induction fuel with
  | zero => intro seen chain cursor h; exact absurd h (Nat.not_lt_zero _)
  | succ n ih =>
    intro seen chain cursor h
    by_cases hns : cursor ∈ seen
    · rw [resolveAuxF_cycle _ _ _ _ _ hns]; simp
    · cases hf : find_profile_file fs cursor with
      | none => rw [resolveAuxF_notFound _ _ _ _ _ hns hf]; simp
      | some p =>
        cases hl : load_json fs p with
        | error e => rw [resolveAuxF_loadErr _ _ _ _ _ _ _ hns hf hl]; simp
        | ok obj =>
          cases hi : jGetStr obj "inherits" with
          | none => rw [resolveAuxF_done _ _ _ _ _ _ _ hns hf hl hi]; simp
          | some inh =>
            rw [resolveAuxF_step _ _ _ _ _ _ _ _ hns hf hl hi]
            apply ih
            have hmem : cursor ∈ resolvableNames fs := mem_resolvable_of_find hf
            have hlt := filter_notSeen_lt hmem hns
            unfold notSeenCount at h ⊢
            omega

theorem resolve_chain_fuel_ok (fs : FS) (s : String) :
    resolveAuxF fs (chainFuel fs) [] [] s ≠ none := by
  apply resolveAuxF_ne_none
  unfold notSeenCount chainFuel
  have := List.length_filter_le (fun x => decide (x ∉ ([] : List String))) (resolvableNames fs)
  omega

theorem two_le_length_of_mem {l : List String} {a b : String} (ha : a ∈ l) (hb : b ∈ l)
    (hne : a ≠ b) : 2 ≤ l.length := by
  cases l with
  | nil => cases ha
  | cons x xs =>
    cases xs with
    | nil =>
      simp only [List.mem_singleton] at ha hb
      exact absurd (ha.trans hb.symm) hne
    | cons y ys => simp only [List.length_cons]; omega

/-! ## Claim theorems C2, C9 and C7 -/

/-- Claim C2: mutual inheritance between two profiles makes resolve_chain
fail with a cycle error naming one of them (the proof shows the start
profile is named), not an infinite loop: the second conjunct shows the
resolver loop never exhausts its sufficient iteration budget for any
filesystem and start name.  The walk starts from an empty visited set, so
the first iteration on the start name passes the cycle check; the special
case X = Y covers direct self-reference, detected on the second
iteration. -/
theorem cycle_detected (fs : FS) (X Y : String) (docX docY : JValue)
    (hX : lookupProfile fs X = some (Except.ok docX))
    (hXY : jGetStr docX "inherits" = some Y)
    (hY : lookupProfile fs Y = some (Except.ok docY))
    (hYX : jGetStr docY "inherits" = some X) :
    (resolve_chain fs X = Except.error ("cycle detected at '" ++ X ++ "'") ∨
     resolve_chain fs X = Except.error ("cycle detected at '" ++ Y ++ "'")) ∧
    ∀ (gs : FS) (s : String), resolveAuxF gs (chainFuel gs) [] [] s ≠ none := by
  refine ⟨Or.inl ?_, fun gs s => resolve_chain_fuel_ok gs s⟩
  rw [lookupProfile] at hX hY
  obtain ⟨pX, hfX, hlX⟩ := Option.map_eq_some'.mp hX
  obtain ⟨pY, hfY, hlY⟩ := Option.map_eq_some'.mp hY
  have hXR : X ∈ resolvableNames fs := mem_resolvable_of_find hfX
  by_cases hxy : X = Y
  · subst hxy
    have h1 : 1 ≤ (resolvableNames fs).length := List.length_pos_of_mem hXR
    obtain ⟨k, hk⟩ : ∃ k, chainFuel fs = (k + 1) + 1 :=
      ⟨(resolvableNames fs).length - 1, by unfold chainFuel; omega⟩
    simp only [resolve_chain]
    rw [hk]
    rw [resolveAuxF_step fs (k + 1) [] [] X pX docX X (by simp) hfX hlX hXY]
    rw [resolveAuxF_cycle fs k [X] _ X (by simp)]
  · have hYR : Y ∈ resolvableNames fs := mem_resolvable_of_find hfY
    have h2 : 2 ≤ (resolvableNames fs).length := two_le_length_of_mem hXR hYR hxy
    obtain ⟨k, hk⟩ : ∃ k, chainFuel fs = ((k + 1) + 1) + 1 :=
      ⟨(resolvableNames fs).length - 2, by unfold chainFuel; omega⟩
    simp only [resolve_chain]
    rw [hk]
    rw [resolveAuxF_step fs ((k + 1) + 1) [] [] X pX docX Y (by simp) hfX hlX hXY]
    rw [resolveAuxF_step fs (k + 1) [X] _ Y pY docY X (by simp [Ne.symm hxy]) hfY hlY hYX]
    rw [resolveAuxF_cycle fs k [Y, X] _ X (by simp)]

/-- Witness for C2: the concrete mutually inheriting profiles x and y. -/
theorem cycle_detected_w :
    (resolve_chain fsCyc "x" = Except.error ("cycle detected at '" ++ "x" ++ "'") ∨
     resolve_chain fsCyc "x" = Except.error ("cycle detected at '" ++ "y" ++ "'")) ∧
    ∀ (gs : FS) (s : String), resolveAuxF gs (chainFuel gs) [] [] s ≠ none :=
  cycle_detected fsCyc "x" "y" xDoc yDoc rfl rfl rfl rfl

/-- Claim C9: a lookup key that resolves to no file in any tier makes the
resolver fail with a not-found error naming exactly that key: the first
conjunct covers any point of the chain walk (any visited set and partial
chain so far, the key not yet visited), the second the entry point; in
both cases the error, not a partial chain, is the entire result. -/
theorem not_found_error (fs : FS) (fuel : Nat) (seen : List String)
    (chain : List (String × JValue)) (cursor start : String)
    (hns : cursor ∉ seen) (hf : find_profile_file fs cursor = none)
    (hs : find_profile_file fs start = none) :
    resolveAuxF fs (fuel + 1) seen chain cursor =
      some (Except.error ("profile not found for '" ++ cursor ++ "'")) ∧
    resolve_chain fs start = Except.error ("profile not found for '" ++ start ++ "'") := by
  refine ⟨resolveAuxF_notFound fs fuel seen chain cursor hns hf, ?_⟩
  simp only [resolve_chain]
  rw [show chainFuel fs = (resolvableNames fs).length + 1 from rfl]
  rw [resolveAuxF_notFound fs _ [] [] start (by simp) hs]

/-- Witness for C9: the lookup key nope resolves nowhere in fs1. -/
theorem not_found_error_w :
    resolveAuxF fs1 (0 + 1) [] [] "nope" =
      some (Except.error ("profile not found for '" ++ "nope" ++ "'")) ∧
    resolve_chain fs1 "nope" = Except.error ("profile not found for '" ++ "nope" ++ "'") :=
  not_found_error fs1 0 [] [] "nope" "nope" (by simp) rfl rfl

theorem findUser_first : ∀ (dirs : List UserDir) (k : Nat) (name : String) (i : Nat)
    (hi : i < dirs.length),
    hasFname (dirs[i]).files (derivedFname name) = true →
    (∀ j (hj : j < i), hasFname (dirs[j]).files (derivedFname name) = false) →
    findUser dirs k name = some (ProfilePath.user (k + i) (derivedFname name)) := by
  intro dirs
  induction dirs with
  | nil => intro k name i hi; exact absurd hi (Nat.not_lt_zero i)
  | cons d rest ih =>
    intro k name i hi hhit hmin
    cases i with
    | zero =>
      have hh : hasFname d.files (derivedFname name) = true := by simpa using hhit
      have ht : try_file d name = some (derivedFname name) := by simp [try_file, hh]
      simp only [findUser]
      rw [ht]
      rfl
    | succ i2 =>
      have h0 : hasFname d.files (derivedFname name) = false := by
        simpa using hmin 0 (Nat.succ_pos i2)
      have ht : try_file d name = none := by simp [try_file, h0]
      have hi2 : i2 < rest.length := by simpa using hi
      have hmin2 : ∀ j (hj : j < i2), hasFname (rest[j]).files (derivedFname name) = false := by
        intro j hj
        simpa using hmin (j + 1) (Nat.succ_lt_succ hj)
      have hres := ih (k + 1) name i2 hi2 (by simpa using hhit) hmin2
      simp only [findUser]
      rw [ht, show k + (i2 + 1) = (k + 1) + i2 from by omega]
      exact hres

/-- Claim C7: the locator probes every user override directory before any
system location, returning the first existing file named by the derived
filename (the lookup key with ".json" appended unless already present);
whenever some user directory holds a match, the result is that user-tier
file, never a system path, whatever the system tree contains. -/
theorem user_tier_precedence (fs : FS) (name : String) (i : Nat)
    (hi : i < fs.userDirs.length)
    (hhit : hasFname (fs.userDirs[i]).files (derivedFname name) = true)
    (hmin : ∀ j (hj : j < i), hasFname (fs.userDirs[j]).files (derivedFname name) = false) :
    find_profile_file fs name = some (ProfilePath.user i (derivedFname name)) := by
  have h := findUser_first fs.userDirs 0 name i hi hhit hmin
  simp [find_profile_file, h]

/-- Witness for C7: child.json is found in the first user directory of
fs1, whose system tree is irrelevant. -/
theorem user_tier_precedence_w :
    find_profile_file fs1 "child" = some (ProfilePath.user 0 (derivedFname "child")) :=
  user_tier_precedence fs1 "child" 0 (by decide) rfl
    (fun j hj => absurd hj (Nat.not_lt_zero j))

/-! ## Claim C8: structural invariants of a successfully resolved chain -/

theorem forall2_head {R : String → (String × JValue) → Prop} :
    ∀ {as : List String} {bs : List (String × JValue)}, List.Forall₂ R as bs →
    ∀ {a : String}, as.head? = some a → ∃ b, bs.head? = some b ∧ R a b := by
  intro as bs h
  cases h with
  | nil => intro a ha; simp at ha
  | cons h1 h2 =>
    intro a ha
    simp only [List.head?_cons, Option.some_inj] at ha
    exact ⟨_, rfl, ha ▸ h1⟩

theorem resolveAuxF_ok_spec (fs : FS) : ∀ (fuel : Nat) (seen : List String)
    (chain : List (String × JValue)) (cursor : String) (ch : List (String × JValue)),
    resolveAuxF fs fuel seen chain cursor = some (Except.ok ch) →
    ∃ lf keys, ch = chain ++ lf ∧ keys.length = lf.length ∧ keys.Nodup ∧
      (∀ k ∈ keys, k ∉ seen) ∧ keys.head? = some cursor ∧
      List.Forall₂ (entryMatches fs) keys lf ∧
      ∀ i (h : i < lf.length), jGetStr (lf.get ⟨i, h⟩).2 "inherits" = keys[i + 1]? := by
  intro fuel
  induction fuel with
  | zero => intro seen chain cursor ch h; simp [resolveAuxF] at h
  | succ n ih =>
    intro seen chain cursor ch h
    by_cases hns : cursor ∈ seen
    · rw [resolveAuxF_cycle _ _ _ _ _ hns] at h
      simp at h
    · cases hf : find_profile_file fs cursor with
      | none =>
        rw [resolveAuxF_notFound _ _ _ _ _ hns hf] at h
        simp at h
      | some p =>
        cases hl : load_json fs p with
        | error e =>
          rw [resolveAuxF_loadErr _ _ _ _ _ _ _ hns hf hl] at h
          simp at h
        | ok obj =>
          cases hi : jGetStr obj "inherits" with
          | none =>
            rw [resolveAuxF_done _ _ _ _ _ _ _ hns hf hl hi] at h
            have hch : ch = chain ++ [(displayName obj cursor, obj)] := by
              simpa using h.symm
            refine ⟨[(displayName obj cursor, obj)], [cursor], hch, rfl,
              List.nodup_singleton _, ?_, rfl, ?_, ?_⟩
            · intro k hk
              rw [List.mem_singleton] at hk
              subst hk
              exact hns
            · exact List.Forall₂.cons ⟨p, hf, hl, rfl⟩ List.Forall₂.nil
            · intro i hlt
              have hi0 : i = 0 := by
                simp only [List.length_singleton] at hlt
                omega
              subst hi0
              simpa using hi
          | some inh =>
            rw [resolveAuxF_step _ _ _ _ _ _ _ _ hns hf hl hi] at h
            obtain ⟨lf2, keys2, hch, hlen, hnd, hsn, hhd, hfa, hadj⟩ := ih _ _ _ _ h
            refine ⟨(displayName obj cursor, obj) :: lf2, cursor :: keys2, ?_, ?_, ?_,
              ?_, rfl, ?_, ?_⟩
            · rw [hch]
              simp
            · simp [hlen]
            · rw [List.nodup_cons]
              refine ⟨?_, hnd⟩
              intro hmem
              exact (hsn cursor hmem) (List.mem_cons_self cursor seen)
            · intro k hk
              rcases List.mem_cons.mp hk with hk1 | hk2
              · subst hk1; exact hns
              · intro hkseen
                exact (hsn k hk2) (List.mem_cons_of_mem cursor hkseen)
            · exact List.Forall₂.cons ⟨p, hf, hl, rfl⟩ hfa
            · intro i hlt
              cases i with
              | zero =>
                have h0 : keys2[0]? = some inh := by
                  rw [← List.head?_eq_getElem?]
                  exact hhd
                rw [List.getElem?_cons_succ, h0]
                simpa using hi
              | succ j =>
                have hj : j < lf2.length := by simpa using hlt
                have hstep := hadj j hj
                have hget : (((displayName obj cursor, obj) :: lf2)).get ⟨j + 1, hlt⟩ =
                    lf2.get ⟨j, hj⟩ := by
                  simp [List.get_cons_succ]
                rw [hget, List.getElem?_cons_succ]
                exact hstep

/-- Claim C8: a chain returned successfully is the reverse of the
leaf-first list the loop assembles, hence root-first; some list of
pairwise distinct lookup keys lines up with its entries one to one (each
entry holds the document its key loads to, named by that documents
display name), consecutive leaf-first entries are linked by the inherits
field (entry i inherits key i+1, and the deepest entry inherits nothing,
expressed by the out-of-range lookup), the head key is the requested
start name, so the last entry of the root-first chain is the requested
profile; and a profile whose document has no inherits field resolves to
exactly its own one-entry chain. -/
theorem chain_invariants (fs : FS) (start n : String) (rch : List (String × JValue))
    (d : JValue)
    (hok : resolve_chain fs start = Except.ok rch)
    (hn : lookupProfile fs n = some (Except.ok d))
    (hnoInh : jGetStr d "inherits" = none) :
    (∃ lf keys, rch = lf.reverse ∧ keys.length = lf.length ∧ keys.Nodup ∧
      keys.head? = some start ∧ List.Forall₂ (entryMatches fs) keys lf ∧
      (∀ i (h : i < lf.length), jGetStr (lf.get ⟨i, h⟩).2 "inherits" = keys[i + 1]?) ∧
      ∃ e, rch.getLast? = some e ∧ entryMatches fs start e) ∧
    resolve_chain fs n = Except.ok [(displayName d n, d)] := by
  constructor
  · simp only [resolve_chain] at hok
    cases hres : resolveAuxF fs (chainFuel fs) [] [] start with
    | none => rw [hres] at hok; simp at hok
    | some r =>
      cases r with
      | error e => rw [hres] at hok; simp at hok
      | ok ch =>
        rw [hres] at hok
        have hrch : rch = ch.reverse := by simpa using hok.symm
        obtain ⟨lf, keys, hch, hlen, hnd, hsn, hhd, hfa, hadj⟩ :=
          resolveAuxF_ok_spec fs _ _ _ _ _ hres
        have hchlf : ch = lf := by simpa using hch
        rw [hchlf] at hrch
        obtain ⟨e0, he0, hRe0⟩ := forall2_head hfa hhd
        refine ⟨lf, keys, hrch, hlen, hnd, hhd, hfa, hadj, e0, ?_, hRe0⟩
        rw [hrch, List.getLast?_reverse]
        exact he0
  · rw [lookupProfile] at hn
    obtain ⟨p, hf, hl⟩ := Option.map_eq_some'.mp hn
    simp only [resolve_chain]
    rw [show chainFuel fs = (resolvableNames fs).length + 1 from rfl]
    rw [resolveAuxF_done fs _ [] [] n p d (by simp) hf hl hnoInh]
    rfl

/-- Witness for C8: the one-entry chain of the parentless profile base in
fs1. -/
theorem chain_invariants_w :
    (∃ lf keys, [("Base", baseDoc)] = lf.reverse ∧ keys.length = lf.length ∧ keys.Nodup ∧
      keys.head? = some "base" ∧ List.Forall₂ (entryMatches fs1) keys lf ∧
      (∀ i (h : i < lf.length), jGetStr (lf.get ⟨i, h⟩).2 "inherits" = keys[i + 1]?) ∧
      ∃ e, [("Base", baseDoc)].getLast? = some e ∧ entryMatches fs1 "base" e) ∧
    resolve_chain fs1 "base" = Except.ok [(displayName baseDoc "base", baseDoc)] :=
  chain_invariants fs1 "base" "base" [("Base", baseDoc)] baseDoc rfl rfl rfl

/-! ## Claim C6: the stamps build_final applies to an object result -/

theorem stamps_lookup (m m4 m5 : List (String × JValue)) (fn fv : String)
    (hm4 : m4 = setKey (setKey (setKey (removeKey m "inherits") "name" (JValue.str fn))
      "from" (JValue.str fv)) "instantiation" (JValue.str "true"))
    (hm5 : m5 = if containsKey m4 "type" then m4 else setKey m4 "type" (JValue.str "filament")) :
    lookupField m5 "inherits" = none ∧
    lookupField m5 "name" = some (JValue.str fn) ∧
    lookupField m5 "from" = some (JValue.str fv) ∧
    lookupField m5 "instantiation" = some (JValue.str "true") ∧
    (lookupField m "type" = none → lookupField m5 "type" = some (JValue.str "filament")) ∧
    (∀ v, lookupField m "type" = some v → lookupField m5 "type" = some v) := by
  have hc : containsKey m4 "type" = (lookupField m "type").isSome := by
    rw [hm4, containsKey_eq_isSome,
      lookupField_setKey_ne _ _ _ _ (by decide),
      lookupField_setKey_ne _ _ _ _ (by decide),
      lookupField_setKey_ne _ _ _ _ (by decide),
      lookupField_removeKey_ne _ _ _ (by decide)]
  cases hty : lookupField m "type" with
  | none =>
    have h5 : m5 = setKey m4 "type" (JValue.str "filament") := by
      rw [hm5, hc, hty]
      rfl
    rw [h5, hm4]
    refine ⟨?_, ?_, ?_, ?_, fun _ => ?_, fun v hv => ?_⟩
    · rw [lookupField_setKey_ne _ _ _ _ (by decide),
        lookupField_setKey_ne _ _ _ _ (by decide),
        lookupField_setKey_ne _ _ _ _ (by decide),
        lookupField_setKey_ne _ _ _ _ (by decide),
        lookupField_removeKey_self]
    · rw [lookupField_setKey_ne _ _ _ _ (by decide),
        lookupField_setKey_ne _ _ _ _ (by decide),
        lookupField_setKey_ne _ _ _ _ (by decide),
        lookupField_setKey_self]
    · rw [lookupField_setKey_ne _ _ _ _ (by decide),
        lookupField_setKey_ne _ _ _ _ (by decide),
        lookupField_setKey_self]
    · rw [lookupField_setKey_ne _ _ _ _ (by decide),
        lookupField_setKey_self]
    · rw [lookupField_setKey_self]
    · exact Option.noConfusion hv
  | some v0 =>
    have h5 : m5 = m4 := by
      rw [hm5, hc, hty]
      rfl
    rw [h5, hm4]
    refine ⟨?_, ?_, ?_, ?_, fun hnone => ?_, fun v hv => ?_⟩
    · rw [lookupField_setKey_ne _ _ _ _ (by decide),
        lookupField_setKey_ne _ _ _ _ (by decide),
        lookupField_setKey_ne _ _ _ _ (by decide),
        lookupField_removeKey_self]
    · rw [lookupField_setKey_ne _ _ _ _ (by decide),
        lookupField_setKey_ne _ _ _ _ (by decide),
        lookupField_setKey_self]
    · rw [lookupField_setKey_ne _ _ _ _ (by decide),
        lookupField_setKey_self]
    · rw [lookupField_setKey_self]
    · exact Option.noConfusion hnone
    · rw [lookupField_setKey_ne _ _ _ _ (by decide),
        lookupField_setKey_ne _ _ _ _ (by decide),
        lookupField_setKey_ne _ _ _ _ (by decide),
        lookupField_removeKey_ne _ _ _ (by decide), hty]
      exact hv

/-- Claim C6: for a chain whose merged accumulator is an object, the
finalized document has no inherits key, its name is the supplied final
display name, its from is the leaf documents from string when present and
the fixed default User otherwise, its instantiation is the marker string
true, and its type is the existing merged type if any, else the fixed
default filament. -/
theorem build_final_stamps (chain : List (String × JValue)) (fn : String)
    (m : List (String × JValue)) (leafn : String) (leafd : JValue)
    (hm : mergedOfChain chain = JValue.obj m)
    (hleaf : chain.getLast? = some (leafn, leafd)) :
    jGet (build_final chain fn) "inherits" = none ∧
    jGet (build_final chain fn) "name" = some (JValue.str fn) ∧
    jGet (build_final chain fn) "from" =
      some (JValue.str ((jGetStr leafd "from").getD "User")) ∧
    jGet (build_final chain fn) "instantiation" = some (JValue.str "true") ∧
    (lookupField m "type" = none →
      jGet (build_final chain fn) "type" = some (JValue.str "filament")) ∧
    (∀ v, lookupField m "type" = some v → jGet (build_final chain fn) "type" = some v) := by
  have hbf : build_final chain fn = JValue.obj
      (if containsKey (setKey (setKey (setKey (removeKey m "inherits") "name"
          (JValue.str fn)) "from" (JValue.str ((jGetStr leafd "from").getD "User")))
          "instantiation" (JValue.str "true")) "type"
       then setKey (setKey (setKey (removeKey m "inherits") "name" (JValue.str fn))
          "from" (JValue.str ((jGetStr leafd "from").getD "User")))
          "instantiation" (JValue.str "true")
       else setKey (setKey (setKey (setKey (removeKey m "inherits") "name"
          (JValue.str fn)) "from" (JValue.str ((jGetStr leafd "from").getD "User")))
          "instantiation" (JValue.str "true")) "type" (JValue.str "filament")) := by
    rw [build_final, hm, hleaf]
    rfl
  obtain ⟨h1, h2, h3, h4, h5, h6⟩ :=
    stamps_lookup m _ _ fn ((jGetStr leafd "from").getD "User") rfl rfl
  rw [hbf]
  exact ⟨h1, h2, h3, h4, h5, h6⟩

/-- Witness for C6 at the one-entry chain of baseDoc. -/
theorem build_final_stamps_w :
    jGet (build_final [("Base", baseDoc)] "Base") "inherits" = none ∧
    jGet (build_final [("Base", baseDoc)] "Base") "name" = some (JValue.str "Base") ∧
    jGet (build_final [("Base", baseDoc)] "Base") "from" =
      some (JValue.str ((jGetStr baseDoc "from").getD "User")) ∧
    jGet (build_final [("Base", baseDoc)] "Base") "instantiation" =
      some (JValue.str "true") ∧
    (lookupField [("name", JValue.str "Base"), ("bed_temp", JValue.num 60)] "type" = none →
      jGet (build_final [("Base", baseDoc)] "Base") "type" =
        some (JValue.str "filament")) ∧
    (∀ v, lookupField [("name", JValue.str "Base"), ("bed_temp", JValue.num 60)] "type" =
        some v →
      jGet (build_final [("Base", baseDoc)] "Base") "type" = some v) :=
  build_final_stamps [("Base", baseDoc)] "Base"
    [("name", JValue.str "Base"), ("bed_temp", JValue.num 60)] "Base" baseDoc rfl rfl

/-! ## Claim C10: a non-object accumulator is returned unstamped -/

/-- Claim C10: when the folded accumulator of the chain is not a JSON
object, build_final returns the merged value untouched, with no inherits
removal and no stamped fields; the build still succeeds, shown concretely
on the single-entry chain of an array-valued profile file. -/
theorem build_final_nonobject (chain : List (String × JValue)) (fn : String)
    (h : isObj (mergedOfChain chain) = false) :
    build_final chain fn = mergedOfChain chain ∧
    build_filament_profile fsArr "weird" = Except.ok (JValue.arr [JValue.num 1]) := by
  refine ⟨?_, rfl⟩
  cases hmc : mergedOfChain chain with
  | obj m => rw [hmc] at h; simp [isObj] at h
  | null => simp [build_final, hmc]
  | bool b => simp [build_final, hmc]
  | num q => simp [build_final, hmc]
  | str s => simp [build_final, hmc]
  | arr xs => simp [build_final, hmc]

/-- Witness for C10: the accumulator of the single-entry array chain is
the array itself, which is not an object. -/
theorem build_final_nonobject_w :
    build_final [("weird", arrDoc)] "weird" = mergedOfChain [("weird", arrDoc)] ∧
    build_filament_profile fsArr "weird" = Except.ok (JValue.arr [JValue.num 1]) :=
  build_final_nonobject [("weird", arrDoc)] "weird" rfl

/-! ## Claim C1: the worked two-file inheritance example -/

/-- Claim C1: with base.json and child.json as in the example,
build_filament_profile of child succeeds and returns an object whose
field set is exactly name, from, instantiation, type, bed_temp, density
(stated as a permutation of the key list, hence independent of key
order), with the values Child, User, true, filament, 65 and 1.24. -/
theorem build_example :
    ∃ m, build_filament_profile fs1 "child" = Except.ok (JValue.obj m) ∧
      (m.map Prod.fst).Perm ["name", "from", "instantiation", "type", "bed_temp", "density"] ∧
      lookupField m "name" = some (JValue.str "Child") ∧
      lookupField m "from" = some (JValue.str "User") ∧
      lookupField m "instantiation" = some (JValue.str "true") ∧
      lookupField m "type" = some (JValue.str "filament") ∧
      lookupField m "bed_temp" = some (JValue.num 65) ∧
      lookupField m "density" = some (JValue.num 1.24) := by
  refine ⟨[("name", JValue.str "Child"), ("bed_temp", JValue.num 65),
    ("density", JValue.num 1.24), ("from", JValue.str "User"),
    ("instantiation", JValue.str "true"), ("type", JValue.str "filament")],
    rfl, ?_, rfl, rfl, rfl, rfl, rfl, rfl⟩
  decide

/-! ## Claim C3: enumeration of files that fail to load -/

/-- Claim C3 counterexample: fsBad holds exactly one user file, bad.json,
with the profile extension and contents that cannot be parsed; the claim
predicts the file contributes no entry, so the listing would be empty,
but list_user_filament_profiles returns the filename stem bad. -/
theorem unparsable_contributes :
    list_user_filament_profiles fsBad = ["bad"] ∧
    list_user_filament_profiles fsBad ≠ [] := by
  exact ⟨rfl, by decide⟩

theorem mem_btreeInsert_self (l : List String) (s : String) : s ∈ btreeInsert l s := by
  induction l with
  | nil => simp [btreeInsert]
  | cons a rest ih =>
    by_cases h1 : s < a
    · simp [btreeInsert, h1]
    · by_cases h2 : (s == a) = true
      · have hsa : s = a := by simpa [beq_iff_eq] using h2
        simp [btreeInsert, h1, h2, hsa]
      · simp only [btreeInsert, if_neg h1, h2, Bool.false_eq_true, if_false]
        exact List.mem_cons_of_mem _ ih

theorem mem_btreeInsert_of_mem (l : List String) (s x : String) (h : x ∈ l) :
    x ∈ btreeInsert l s := by
  induction l with
  | nil => cases h
  | cons a rest ih =>
    by_cases h1 : s < a
    · simp only [btreeInsert, if_pos h1]
      exact List.mem_cons_of_mem _ h
    · by_cases h2 : (s == a) = true
      · simp only [btreeInsert, if_neg h1, h2, if_true]
        exact h
      · simp only [btreeInsert, if_neg h1, h2, Bool.false_eq_true, if_false]
        rcases List.mem_cons.mp h with hx | hx
        · subst hx; exact List.mem_cons_self _ _
        · exact List.mem_cons_of_mem _ (ih hx)

theorem mem_listFileStep (names : List String) (f : FSFile) (x : String) (h : x ∈ names) :
    x ∈ listFileStep names f := by
  rw [listFileStep]
  by_cases hx : (extOf f.fname == some "json") = true
  · rw [if_pos hx]
    cases hpe : profileEntryName f with
    | some nn => exact mem_btreeInsert_of_mem _ _ _ h
    | none => exact h
  · rw [if_neg hx]
    exact h

theorem mem_listFilesFold (files : List FSFile) : ∀ (names : List String) (x : String),
    x ∈ names → x ∈ listFilesFold names files := by
  induction files with
  | nil => intro names x h; exact h
  | cons f rest ih =>
    intro names x h
    exact ih _ _ (mem_listFileStep _ _ _ h)

theorem mem_listDirsFold (dirs : List UserDir) : ∀ (names : List String) (x : String),
    x ∈ names → x ∈ listDirsFold names dirs := by
  induction dirs with
  | nil => intro names x h; exact h
  | cons d rest ih =>
    intro names x h
    exact ih _ _ (mem_listFilesFold _ _ _ h)

theorem stem_mem_listFilesFold : ∀ (files : List FSFile) (names : List String)
    (f : FSFile) (e : String), f ∈ files → extOf f.fname = some "json" →
    f.content = Except.error e → stemOf f.fname ∈ listFilesFold names files := by
  intro files
  induction files with
  | nil => intro names f e hf; cases hf
  | cons g rest ih =>
    intro names f e hf hext herr
    rcases List.mem_cons.mp hf with hg | hg
    · subst hg
      rw [listFilesFold]
      apply mem_listFilesFold
      rw [listFileStep]
      have hb : (extOf f.fname == some "json") = true := by simp [hext]
      rw [if_pos hb]
      have hpe : profileEntryName f = some (stemOf f.fname) := by
        simp [profileEntryName, herr]
      rw [hpe]
      exact mem_btreeInsert_self _ _
    · rw [listFilesFold]
      exact ih _ _ _ hg hext herr

theorem stem_mem_listDirsFold : ∀ (dirs : List UserDir) (names : List String)
    (d : UserDir) (f : FSFile) (e : String), d ∈ dirs → f ∈ d.files →
    extOf f.fname = some "json" → f.content = Except.error e →
    stemOf f.fname ∈ listDirsFold names dirs := by
  intro dirs
  induction dirs with
  | nil => intro names d f e hd; cases hd
  | cons d0 rest ih =>
    intro names d f e hd hf hext herr
    rcases List.mem_cons.mp hd with h1 | h2
    · subst h1
      rw [listDirsFold]
      apply mem_listDirsFold
      exact stem_mem_listFilesFold d.files names f e hf hext herr
    · rw [listDirsFold]
      exact ih _ _ _ _ h2 hf hext herr

/-- Claim C3 amended: a file in a user override directory with the
profile extension whose contents cannot be read or parsed still
contributes an entry to the listing, namely its filename stem: the
name-field preference falls back to the stem when loading fails. -/
theorem unreadable_falls_back_to_stem (fs : FS) (d : UserDir) (f : FSFile) (e : String)
    (hd : d ∈ fs.userDirs) (hf : f ∈ d.files)
    (hext : extOf f.fname = some "json") (herr : f.content = Except.error e) :
    stemOf f.fname ∈ list_user_filament_profiles fs := by
  rw [list_user_filament_profiles]
  exact stem_mem_listDirsFold fs.userDirs [] d f e hd hf hext herr

/-- Witness for C3 amended: the unparsable bad.json contributes bad. -/
theorem unreadable_falls_back_to_stem_w :
    stemOf "bad.json" ∈ list_user_filament_profiles fsBad :=
  unreadable_falls_back_to_stem fsBad
    ⟨[⟨"bad.json", Except.error "parse bad.json: expected value"⟩]⟩
    ⟨"bad.json", Except.error "parse bad.json: expected value"⟩
    "parse bad.json: expected value" (by simp [fsBad]) (by simp) rfl rfl

end Orca
